import Mathlib

/-!
Verification development for the `llm_switch` model-switcher program
(`src/llm_switch.py`).

The embedding below translates the program's core into Lean:

* paths (`pathlib.Path`) are modelled as lists of components (`PPath`);
* the backend registry built at import time (`get_common_model_dirs`,
  `COMMON_BACKENDS`) is a function of an explicit environment (`Env`)
  capturing the platform, home directory, working directory, environment
  variables and the one filesystem-existence check the builder performs;
* the filesystem is a flat list of entries (`FS`), each carrying its path,
  kind (regular file, symlink to a file, directory, symlink to a
  directory), size, modification time and abstract content;
* the standard-library calls the program makes (`Path.rglob`,
  `Path.exists`, `Path.is_file`, `Path.mkdir`, `Path.unlink`,
  `shutil.rmtree`, `shutil.copy2`, `os.symlink`) are modelled from their
  documented semantics; in particular the `**` pattern of `rglob` does not
  descend into symlinked directories, which is captured by the
  `betweenAreDirs` side condition;
* the program's own code (`discover_models_common`, `switch_model`,
  `select_destination_backend`, `main`) is translated structurally, with
  user decisions and fallible I/O steps supplied as explicit oracles.

Modelling conventions: glob suffix matching is case sensitive (POSIX
`pathlib` semantics); symbolic links are assumed non-dangling, a file
symlink entry carries the stat of its resolved target; directories reached
only through a symlinked path component are outside the model.
-/

/-- Filesystem paths as lists of components, as produced by
`pathlib` (`Path.parts`). An absolute POSIX path starts with the component
`"/"`; `Path("")`, whose `parts` is empty, is the empty list. -/
abbrev PPath := List String

/-- Last path component (`Path.name`); empty for the empty path. -/
def lastName (p : PPath) : String := p.getLast?.getD ""

/-- Case-sensitive suffix test on strings, modelling the glob pattern
`*<ext>` matching a file name (POSIX `pathlib` semantics). -/
def strEndsWith (s suffix : String) : Bool := suffix.data.isSuffixOf s.data

/-- Concatenation of the results of `f` over a list: the shape of the
program's nested accumulate-append loops. -/
def cmap (f : α → List β) : List α → List β
  | [] => []
  | a :: l => f a ++ cmap f l

/-- Auxiliary for `fromKeys`: drop elements already recorded in `seen`,
keeping first occurrences. -/
def fromKeysAux [DecidableEq α] (seen : List α) : List α → List α
  | [] => []
  | a :: l => if a ∈ seen then fromKeysAux seen l else a :: fromKeysAux (a :: seen) l

/-- First-seen-order deduplication, modelling `list(dict.fromkeys(l))`. -/
def fromKeys [DecidableEq α] (l : List α) : List α := fromKeysAux [] l

/-- Ambient state the registry builder reads: platform test
(`platform.system() == "Windows"`), `Path.home()`, `Path.cwd()`, the
environment (values already parsed into paths, `none` meaning unset, and
an unset variable parsing to the empty path), and the filesystem-existence
oracle used for the single `localappdata.exists()` check. -/
structure Env where
  isWindows : Bool
  home : PPath
  cwd : PPath
  vars : String → Option PPath
  fsExists : PPath → Bool

/-- Value of an environment variable as a path:
`Path(os.environ.get(k, ""))`. -/
def envPath (e : Env) (k : String) : PPath := (e.vars k).getD []

/-- A Python `Path` object defines neither `__bool__` nor `__len__`, so
`if user_profile:` is always taken; this models that truthiness test. -/
def pathTruthy (_ : PPath) : Bool := true

/-- Candidate directories for llama.cpp before deduplication
(`llama_paths` in `get_common_model_dirs`). -/
def llama_paths (e : Env) : List PPath :=
  let base := [e.home ++ ["models"], e.home ++ ["llama.cpp", "models"],
    e.home ++ ["llama", "models"], e.home ++ [".llama", "models"],
    e.cwd ++ ["models"]]
  if e.isWindows then
    let up := envPath e "USERPROFILE"
    if pathTruthy up then
      base ++ [up ++ ["models"], up ++ ["llama.cpp", "models"]]
    else base
  else
    base ++ [["/", "usr", "local", "share", "llama.cpp", "models"],
      ["/", "opt", "llama.cpp", "models"]]

/-- Candidate directories for LM Studio (`lmstudio_paths`). -/
def lmstudio_paths (e : Env) : List PPath :=
  if e.isWindows then
    let up := envPath e "USERPROFILE"
    let first := if pathTruthy up then [up ++ [".lmstudio", "models"]] else []
    let lad := envPath e "LOCALAPPDATA"
    first ++ (if e.fsExists lad then [lad ++ ["LM Studio", "models"]] else [])
  else
    [e.home ++ [".lmstudio", "models"],
      e.home ++ ["Library", "Application Support", "LM Studio", "models"]]

/-- Candidate directories for Jan.ai (`jan_paths`). -/
def jan_paths (e : Env) : List PPath :=
  if e.isWindows then
    let up := envPath e "USERPROFILE"
    let first := if pathTruthy up then [up ++ ["jan", "models"]] else []
    let lad := envPath e "LOCALAPPDATA"
    first ++ (if e.fsExists lad then [lad ++ ["jan", "models"]] else [])
  else
    [e.home ++ ["jan", "models"], e.home ++ [".jan", "models"]]

/-- Candidate directories for Oobabooga (`ooba_paths`). -/
def ooba_paths (e : Env) : List PPath :=
  let base := [e.home ++ ["oobabooga", "models"],
    e.home ++ ["text-generation-webui", "models"]]
  if e.isWindows then
    let up := envPath e "USERPROFILE"
    if pathTruthy up then base ++ [up ++ ["oobabooga", "models"]] else base
  else base

/-- Candidate directories for the catch-all backend (`general_paths`). -/
def general_paths (e : Env) : List PPath :=
  let base := [e.home ++ ["Downloads"], e.home ++ ["Documents", "models"],
    e.home ++ [".local", "share", "llm-models"], ["/", "models"]]
  if e.isWindows then base ++ [["C:", "models"]] else base

/-- Backend name to ordered directory list, in insertion order, as built
by `get_common_model_dirs`; only the llama.cpp list is passed through
`dict.fromkeys`. -/
def get_common_model_dirs (e : Env) : List (String × List PPath) :=
  [("llama.cpp", fromKeys (llama_paths e)),
   ("LM Studio", lmstudio_paths e),
   ("Jan.ai", jan_paths e),
   ("Oobabooga", ooba_paths e),
   ("Other locations", general_paths e)]

/-- The fixed extension set attached to every backend. -/
def EXTS : List String := [".gguf", ".bin", ".pt", ".pth", ".safetensors"]

/-- Per-backend configuration: ordered directory list and recognized
extensions. -/
structure BackendCfg where
  paths : List PPath
  extensions : List String
deriving DecidableEq

/-- An ordered registry of backends, as the module-level `COMMON_BACKENDS`
dict (insertion-ordered in Python 3.7+). -/
abbrev Registry := List (String × BackendCfg)

/-- The registry built at import time from `get_common_model_dirs`. -/
def COMMON_BACKENDS (e : Env) : Registry :=
  (get_common_model_dirs e).map (fun nd => (nd.1, ⟨nd.2, EXTS⟩))

/-- Dictionary lookup `COMMON_BACKENDS[name]`; `none` models a `KeyError`. -/
def lookupBackend (backends : Registry) (name : String) : Option BackendCfg :=
  (backends.find? (fun bc => bc.1 = name)).map (·.2)

/-- Kind of a filesystem entry; symbolic links are split by what their
target resolves to (the model assumes non-dangling links). -/
inductive FKind where
  | regular
  | linkFile
  | directory
  | dirLink
deriving DecidableEq

/-- One filesystem entry: path, kind, and the stat data the program
reads (`st_size`, `st_mtime`, plus an abstract content tag for framing).
For a `linkFile` the stat fields are those of the resolved target. -/
structure FEntry where
  path : PPath
  kind : FKind
  size : Nat
  mtime : Nat
  data : Nat
deriving DecidableEq

/-- A filesystem snapshot: the entries in directory-enumeration order
(modelling the order `os.scandir` reports and hence traversal order). -/
structure FS where
  entries : List FEntry
deriving DecidableEq

/-- Whether `st.kind` is a file after following links (`Path.is_file`). -/
def isFileKind : FKind → Bool
  | .regular => true
  | .linkFile => true
  | _ => false

/-- Kind of the entry at a path, if any. -/
def FS.kindAt (fs : FS) (p : PPath) : Option FKind :=
  (fs.entries.find? (fun e => decide (e.path = p))).map (·.kind)

/-- Models `Path.exists()` (follows links; links assumed non-dangling). -/
def FS.existsPath (fs : FS) (p : PPath) : Bool :=
  fs.entries.any (fun e => decide (e.path = p))

/-- Every strictly intermediate prefix of `q` above `d` is a real
directory: the `**` pattern of `pathlib` glob enumerates subdirectories
without following symlinked directories, so a traversal from `d` reaches
`q` exactly when all components strictly between them are real
directories. -/
def betweenAreDirs (fs : FS) (d q : PPath) : Bool :=
  (List.range q.length).all fun i =>
    decide (i + 1 ≤ d.length ∨ q.length ≤ i + 1 ∨
      fs.kindAt (q.take (i + 1)) = some FKind.directory)

/-- Models `d.rglob("*" + ext)`: all entries strictly below `d` whose name
ends with `ext`, reached through real directories only; nothing is
yielded when `d` is not a real directory. Yields entries of every kind
(the `is_file` filter is applied by the caller, as in the program). -/
def FS.rglob (fs : FS) (d : PPath) (ext : String) : List FEntry :=
  if fs.kindAt d = some FKind.directory then
    fs.entries.filter fun e =>
      decide (d <+: e.path ∧ d.length < e.path.length ∧
        strEndsWith (lastName e.path) ext = true ∧
        betweenAreDirs fs d e.path = true)
  else []

/-- One discovered model file, as the dict the program appends to
`models`: name, absolute path, originating backend, size, mtime. -/
structure ModelRecord where
  name : String
  path : PPath
  backend : String
  size : Nat
  modified : Nat
deriving DecidableEq

/-- The record built from a matched entry (`model_path.name`,
`str(model_path.absolute())`, backend, `stat.st_size`, `stat.st_mtime`). -/
def toRecord (bname : String) (e : FEntry) : ModelRecord :=
  ⟨lastName e.path, e.path, bname, e.size, e.mtime⟩

/-- Inner loop of `discover_models_common`: for each extension in order,
`rglob` then keep regular files (symlinks to files included). -/
def scanExts (fs : FS) (bname : String) (d : PPath) : List String → List ModelRecord
  | [] => []
  | ext :: exts =>
    ((fs.rglob d ext).filter (fun e => isFileKind e.kind)).map (toRecord bname)
      ++ scanExts fs bname d exts

/-- Middle loop of `discover_models_common`: directories in order, each
skipped silently when it does not exist. -/
def scanDirs (fs : FS) (bname : String) (exts : List String) : List PPath → List ModelRecord
  | [] => []
  | d :: ds =>
    (if fs.existsPath d then scanExts fs bname d exts else [])
      ++ scanDirs fs bname exts ds

/-- `discover_models_common`: walk the registry in order and collect
model records. -/
def discover_models_common (backends : Registry) (fs : FS) : List ModelRecord :=
  match backends with
  | [] => []
  | bc :: rest => scanDirs fs bc.1 bc.2.extensions bc.2.paths
      ++ discover_models_common rest fs

/-- All nonempty prefixes of a path, shortest first. -/
def prefixesOf (p : PPath) : List PPath :=
  (List.range p.length).map (fun i => p.take (i + 1))

/-- Models `dest_dir.mkdir(parents=True, exist_ok=True)` on success: a
no-op when the directory already exists, otherwise the missing prefixes
are created as directories (appended in the enumeration order). -/
def FS.mkdirp (fs : FS) (d : PPath) : FS :=
  if fs.kindAt d = some FKind.directory then fs
  else ⟨fs.entries ++
    ((prefixesOf d).filter (fun q => !fs.existsPath q)).map
      (fun q => ⟨q, FKind.directory, 0, 0, 0⟩)⟩

/-- Models the removal step: `unlink` for a file or symlink (the exact
entry disappears), `shutil.rmtree` for a directory (the entry and
everything below it disappear). -/
def FS.removeAt (fs : FS) (p : PPath) : FS :=
  match fs.kindAt p with
  | some FKind.directory => ⟨fs.entries.filter (fun e => !decide (p <+: e.path))⟩
  | _ => ⟨fs.entries.filter (fun e => !decide (e.path = p))⟩

/-- Models `shutil.copy2(src, dst)`: duplicates content, size and mtime
to `dst` (replacing anything there); `none` models the raised exception
when `src` is not a readable file. -/
def FS.copy2 (fs : FS) (src dst : PPath) : Option FS :=
  match fs.entries.find? (fun e => decide (e.path = src)) with
  | some e =>
    if isFileKind e.kind then
      some ⟨(fs.entries.filter (fun x => !decide (x.path = dst))) ++
        [⟨dst, FKind.regular, e.size, e.mtime, e.data⟩]⟩
    else none
  | none => none

/-- Models `os.symlink(src, dst)` on success: a new file-symlink entry at
`dst` whose resolved stat is the current stat of `src`. -/
def FS.symlinkAt (fs : FS) (src dst : PPath) : FS :=
  match fs.entries.find? (fun e => decide (e.path = src)) with
  | some e => ⟨fs.entries ++ [⟨dst, FKind.linkFile, e.size, e.mtime, e.data⟩]⟩
  | none => ⟨fs.entries ++ [⟨dst, FKind.linkFile, 0, 0, 0⟩]⟩

/-- Oracles for one `switch_model` call: the platform, the user's answer
to the overwrite confirmation, and whether each fallible filesystem step
raises (`mkdir`, the removal, `os.symlink` raising `OSError`, the copy
raising an I/O error). -/
structure SwitchCtx where
  isWindows : Bool
  overwriteAnswer : Bool
  mkdirFails : Bool
  removeFails : Bool
  symlinkFails : Bool
  copyFails : Bool
deriving DecidableEq

/-- Outcome of `switch_model`: the returned boolean, which success
message was printed (`"symlink"` or `"copy"`), whether the
skipped-by-user message was printed, and the resulting filesystem. -/
structure SwitchResult where
  success : Bool
  methodUsed : Option String
  skipped : Bool
  fs : FS
deriving DecidableEq

/-- Placement step of `switch_model` (the final `try` block): symlink
with the Windows-only copy fallback on `OSError`, otherwise copy; any
other exception is caught by the outer handler and yields `False`. -/
def doPlace (ctx : SwitchCtx) (fs : FS) (src dest : PPath) (method : String) : SwitchResult :=
  if method = "symlink" then
    if ctx.isWindows then
      if ctx.symlinkFails then
        if ctx.copyFails then ⟨false, none, false, fs⟩
        else
          match fs.copy2 src dest with
          | some fs2 => ⟨true, some "copy", false, fs2⟩
          | none => ⟨false, none, false, fs⟩
      else ⟨true, some "symlink", false, fs.symlinkAt src dest⟩
    else
      if ctx.symlinkFails then ⟨false, none, false, fs⟩
      else ⟨true, some "symlink", false, fs.symlinkAt src dest⟩
  else
    if ctx.copyFails then ⟨false, none, false, fs⟩
    else
      match fs.copy2 src dest with
      | some fs2 => ⟨true, some "copy", false, fs2⟩
      | none => ⟨false, none, false, fs⟩

/-- `switch_model(model, dest_backend, method)`: resolve the destination
as the backend's first configured directory joined with the source name,
ensure the directory, confirm and remove on conflict, then place.
`none` models the uncaught `KeyError`/`IndexError` when the backend is
unknown or has no configured path. -/
def switch_model (backends : Registry) (ctx : SwitchCtx) (fs : FS)
    (model : ModelRecord) (dest_backend : String) (method : String) : Option SwitchResult :=
  match lookupBackend backends dest_backend with
  | none => none
  | some cfg =>
    match cfg.paths with
    | [] => none
    | dest_dir :: _ =>
      let dest_path := dest_dir ++ [lastName model.path]
      if ctx.mkdirFails then some ⟨false, none, false, fs⟩
      else
        let fs1 := fs.mkdirp dest_dir
        if fs1.existsPath dest_path then
          if !ctx.overwriteAnswer then some ⟨false, none, true, fs1⟩
          else if ctx.removeFails then some ⟨false, none, false, fs1⟩
          else some (doPlace ctx (fs1.removeAt dest_path) model.path dest_path method)
        else some (doPlace ctx fs1 model.path dest_path method)

/-- `select_destination_backend(source_backend)`: offer every backend
other than the source whose path list is nonempty; the user's pick is an
index (`none` models cancellation or an invalid entry). -/
def select_destination_backend (backends : Registry) (source_backend : String)
    (choice : Option Nat) : Option String :=
  let dest_backends := (backends.filter
    (fun bc => decide (bc.1 ≠ source_backend) && !bc.2.paths.isEmpty)).map (·.1)
  if dest_backends.isEmpty then none
  else
    match choice with
    | none => none
    | some i => dest_backends[i]?

/-- User decisions and fallback-scan oracles for one run of `main`: the
answer to the deep-scan offer, the records a deep scan would return, the
records the rescan after manual path addition would return, the two
selection choices, and the chosen method (already defaulted to
`"copy"` when the method prompt was cancelled, as `main` does). -/
structure MainCtx where
  wantsDeepScan : Bool
  deepScanResult : List ModelRecord
  rescanResult : List ModelRecord
  modelChoice : Option Nat
  destChoice : Option Nat
  methodChoice : String

/-- The model list `main` ends up with after the initial scan and, when it
is empty, the deep-scan offer and the manual-path rescan
(`ask_for_custom_paths` always returns `True`). -/
def mainModels (backends : Registry) (fs : FS) (u : MainCtx) : List ModelRecord :=
  let m0 := discover_models_common backends fs
  if m0.isEmpty then
    let m1 := if u.wantsDeepScan then u.deepScanResult else m0
    if m1.isEmpty then u.rescanResult else m1
  else m0

/-- Exit code of `main`: `some 0` for success or clean cancellation,
`some 1` for the no-models and switch-failure exits, `none` when
`switch_model` raises uncaught. -/
def mainExit (backends : Registry) (fs : FS) (u : MainCtx) (sctx : SwitchCtx) : Option Nat :=
  let models := mainModels backends fs u
  if models.isEmpty then some 1
  else
    match u.modelChoice with
    | none => some 0
    | some i =>
      match models[i]? with
      | none => some 0
      | some selected =>
        match select_destination_backend backends selected.backend u.destChoice with
        | none => some 0
        | some db =>
          match switch_model backends sctx fs selected db u.methodChoice with
          | none => none
          | some r => if r.success then some 0 else some 1

/-- Test registry: two backends with one configured directory each. -/
def tReg : Registry := [("llama.cpp", ⟨[["/", "a"]], EXTS⟩),
  ("LM Studio", ⟨[["/", "b"]], EXTS⟩)]

/-- Snapshot with a source model and an empty destination directory. -/
def tFS0 : FS := ⟨[⟨["/", "a"], FKind.directory, 0, 0, 0⟩,
  ⟨["/", "a", "m.gguf"], FKind.regular, 5, 7, 42⟩,
  ⟨["/", "b"], FKind.directory, 0, 0, 0⟩]⟩

/-- Snapshot where the destination slot is already occupied. -/
def tFS1 : FS := ⟨[⟨["/", "a"], FKind.directory, 0, 0, 0⟩,
  ⟨["/", "a", "m.gguf"], FKind.regular, 5, 7, 42⟩,
  ⟨["/", "b"], FKind.directory, 0, 0, 0⟩,
  ⟨["/", "b", "m.gguf"], FKind.regular, 9, 9, 9⟩]⟩

/-- The record discovery produces for the source model in `tFS0`/`tFS1`. -/
def tModel : ModelRecord := ⟨"m.gguf", ["/", "a", "m.gguf"], "llama.cpp", 5, 7⟩

/-- Registry scanning one directory, for the symlink-cycle snapshot. -/
def regCyc : Registry := [("llama.cpp", ⟨[["/", "a"]], EXTS⟩)]

/-- Snapshot containing a directory symlink back into the scanned tree
(`/a/loop`, a cycle) plus a matching file both directly under `/a` and
behind the symlink. -/
def fsCyc : FS := ⟨[⟨["/", "a"], FKind.directory, 0, 0, 0⟩,
  ⟨["/", "a", "loop"], FKind.dirLink, 0, 0, 0⟩,
  ⟨["/", "a", "x.gguf"], FKind.regular, 1, 2, 3⟩,
  ⟨["/", "a", "loop", "y.gguf"], FKind.regular, 1, 1, 1⟩]⟩

/-- The one record discovery yields on `fsCyc`. -/
def recCyc : ModelRecord := ⟨"x.gguf", ["/", "a", "x.gguf"], "llama.cpp", 1, 2⟩

/-- POSIX environment with `LLAMA_CPP_PATH` set to `/tmp/extra`. -/
def eSet : Env := ⟨false, ["/", "home", "u"], ["/", "home", "u"],
  fun k => if k = "LLAMA_CPP_PATH" then some ["/", "tmp", "extra"] else none,
  fun _ => false⟩

/-- The same environment with no variables set. -/
def eUnset : Env := ⟨false, ["/", "home", "u"], ["/", "home", "u"],
  fun _ => none, fun _ => false⟩

/-- Snapshot where `/tmp/extra` exists and holds `foo.gguf`, and no
default search directory exists. -/
def fsTmp : FS := ⟨[⟨["/", "tmp"], FKind.directory, 0, 0, 0⟩,
  ⟨["/", "tmp", "extra"], FKind.directory, 0, 0, 0⟩,
  ⟨["/", "tmp", "extra", "foo.gguf"], FKind.regular, 3, 3, 3⟩]⟩

/-- Windows environment whose `USERPROFILE` equals the home directory. -/
def eWinDup : Env := ⟨true, ["C:", "Users", "u"], ["C:", "Users", "u"],
  fun k => if k = "USERPROFILE" then some ["C:", "Users", "u"] else none,
  fun _ => false⟩

/-- A second snapshot value holding the same entry list as `tFS1`. -/
def tFS1b : FS := ⟨[⟨["/", "a"], FKind.directory, 0, 0, 0⟩,
  ⟨["/", "a", "m.gguf"], FKind.regular, 5, 7, 42⟩,
  ⟨["/", "b"], FKind.directory, 0, 0, 0⟩,
  ⟨["/", "b", "m.gguf"], FKind.regular, 9, 9, 9⟩]⟩

/-- User run that cancels at the model-selection prompt. -/
def uCancel : MainCtx := ⟨false, [], [], none, none, "copy"⟩

/-- User run that picks the first model and the first destination. -/
def uRun : MainCtx := ⟨false, [], [], some 0, some 0, "copy"⟩

/-- Switch oracles: POSIX, user declines the overwrite, no I/O failures. -/
def sctxDecline : SwitchCtx := ⟨false, false, false, false, false, false⟩

/-- Switch oracles: POSIX, user accepts the overwrite, no I/O failures. -/
def sctxAccept : SwitchCtx := ⟨false, true, false, false, false, false⟩

/-- Switch oracles: Windows, symlink creation raises `OSError`. -/
def sctxWinFail : SwitchCtx := ⟨true, true, false, false, true, false⟩

/-- Switch oracles: POSIX, symlink creation raises. -/
def sctxNixFail : SwitchCtx := ⟨false, true, false, false, true, false⟩


theorem mem_cmap {f : α → List β} {l : List α} {b : β} :
    b ∈ cmap f l ↔ ∃ a ∈ l, b ∈ f a := by
  induction l with
  | nil => simp [cmap]
  | cons a l ih => simp [cmap, ih]

theorem mem_fromKeysAux [DecidableEq α] (seen l : List α) (x : α) :
    x ∈ fromKeysAux seen l ↔ x ∈ l ∧ x ∉ seen := by
  induction l generalizing seen with
  | nil => simp [fromKeysAux]
  | cons a l ih =>
    by_cases ha : a ∈ seen
    · rw [fromKeysAux, if_pos ha, ih]
      constructor
      · rintro ⟨h1, h2⟩; exact ⟨List.mem_cons_of_mem a h1, h2⟩
      · rintro ⟨h1, h2⟩
        rcases List.mem_cons.1 h1 with rfl | h1
        · exact absurd ha h2
        · exact ⟨h1, h2⟩
    · rw [fromKeysAux, if_neg ha]
      constructor
      · intro h
        rcases List.mem_cons.1 h with rfl | h
        · exact ⟨List.mem_cons_self x l, ha⟩
        · have := (ih (a :: seen)).1 h
          exact ⟨List.mem_cons_of_mem a this.1,
            fun hx => this.2 (List.mem_cons_of_mem a hx)⟩
      · rintro ⟨h1, h2⟩
        rcases List.mem_cons.1 h1 with rfl | h1
        · exact List.mem_cons_self x _
        · by_cases hxa : x = a
          · subst hxa; exact List.mem_cons_self x _
          · exact List.mem_cons_of_mem a ((ih (a :: seen)).2
              ⟨h1, fun hx => (List.mem_cons.1 hx).elim hxa h2⟩)

theorem mem_fromKeys [DecidableEq α] (l : List α) (x : α) :
    x ∈ fromKeys l ↔ x ∈ l := by
  rw [fromKeys, mem_fromKeysAux]; simp

theorem fromKeysAux_sublist [DecidableEq α] (seen l : List α) :
    List.Sublist (fromKeysAux seen l) l := by
  induction l generalizing seen with
  | nil => simp [fromKeysAux]
  | cons a l ih =>
    by_cases ha : a ∈ seen
    · rw [fromKeysAux, if_pos ha]; exact (ih seen).cons a
    · rw [fromKeysAux, if_neg ha]; exact (ih (a :: seen)).cons₂ a

theorem fromKeys_sublist [DecidableEq α] (l : List α) : List.Sublist (fromKeys l) l :=
  fromKeysAux_sublist [] l

theorem fromKeysAux_nodup [DecidableEq α] (seen l : List α) :
    (fromKeysAux seen l).Nodup := by
  induction l generalizing seen with
  | nil => simp [fromKeysAux]
  | cons a l ih =>
    by_cases ha : a ∈ seen
    · rw [fromKeysAux, if_pos ha]; exact ih seen
    · rw [fromKeysAux, if_neg ha]
      refine List.nodup_cons.mpr ⟨fun hmem => ?_, ih (a :: seen)⟩
      exact ((mem_fromKeysAux (a :: seen) l a).1 hmem).2 (List.mem_cons_self a seen)

theorem fromKeys_nodup [DecidableEq α] (l : List α) : (fromKeys l).Nodup :=
  fromKeysAux_nodup [] l

theorem find?_filter_eq (l : List α) (p f : α → Bool)
    (h : ∀ x, p x = true → f x = true) : (l.filter f).find? p = l.find? p := by
  induction l with
  | nil => rfl
  | cons a l ih =>
    by_cases hp : p a = true
    · rw [List.filter_cons, if_pos (h a hp), List.find?_cons_of_pos _ hp,
        List.find?_cons_of_pos _ hp]
    · by_cases hf : f a = true
      · rw [List.filter_cons, if_pos hf, List.find?_cons_of_neg _ hp,
          List.find?_cons_of_neg _ hp, ih]
      · rw [List.filter_cons, if_neg hf, List.find?_cons_of_neg _ hp, ih]

theorem find?_append_some (l m : List α) (p : α → Bool) (e : α)
    (h : l.find? p = some e) : (l ++ m).find? p = some e := by
  induction l with
  | nil => simp at h
  | cons a l ih =>
    by_cases hp : p a = true
    · rw [List.find?_cons_of_pos _ hp] at h
      rw [List.cons_append, List.find?_cons_of_pos _ hp]; exact h
    · rw [List.find?_cons_of_neg _ hp] at h
      rw [List.cons_append, List.find?_cons_of_neg _ hp]; exact ih h

theorem find?_append_none (l m : List α) (p : α → Bool)
    (h : l.find? p = none) : (l ++ m).find? p = m.find? p := by
  induction l with
  | nil => simp
  | cons a l ih =>
    by_cases hp : p a = true
    · rw [List.find?_cons_of_pos _ hp] at h; exact absurd h (by simp)
    · rw [List.find?_cons_of_neg _ hp] at h
      rw [List.cons_append, List.find?_cons_of_neg _ hp]; exact ih h

theorem existsPath_of_kindAt {fs : FS} {p : PPath} {k : FKind}
    (h : fs.kindAt p = some k) : fs.existsPath p = true := by
  unfold FS.kindAt at h
  rcases ho : fs.entries.find? (fun e => decide (e.path = p)) with _ | e
  · rw [ho] at h; simp at h
  · have hmem := List.mem_of_find?_eq_some ho
    have hpred := List.find?_some ho
    exact List.any_eq_true.mpr ⟨e, hmem, hpred⟩

theorem mem_rglob {fs : FS} {d : PPath} {ext : String} {e : FEntry} :
    e ∈ fs.rglob d ext ↔ fs.kindAt d = some FKind.directory ∧ e ∈ fs.entries ∧
      d <+: e.path ∧ d.length < e.path.length ∧
      strEndsWith (lastName e.path) ext = true ∧ betweenAreDirs fs d e.path = true := by
  unfold FS.rglob
  by_cases h : fs.kindAt d = some FKind.directory
  · rw [if_pos h]
    simp only [List.mem_filter, decide_eq_true_eq, h, true_and]
  · rw [if_neg h]
    simp [h]

theorem mem_scanExts {fs : FS} {b : String} {d : PPath} {exts : List String} {r : ModelRecord} :
    r ∈ scanExts fs b d exts ↔
      ∃ ext ∈ exts, ∃ e ∈ fs.rglob d ext, isFileKind e.kind = true ∧ r = toRecord b e := by
  induction exts with
  | nil => simp [scanExts]
  | cons ext exts ih =>
    simp only [scanExts, List.mem_append, List.mem_map, List.mem_filter, ih,
      List.mem_cons]
    constructor
    · rintro (⟨e, ⟨he, hk⟩, rfl⟩ | ⟨x, hx, e, he, hk, rfl⟩)
      · exact ⟨ext, Or.inl rfl, e, he, hk, rfl⟩
      · exact ⟨x, Or.inr hx, e, he, hk, rfl⟩
    · rintro ⟨x, hx | hx, e, he, hk, rfl⟩
      · exact Or.inl ⟨e, ⟨by rwa [hx] at he, hk⟩, rfl⟩
      · exact Or.inr ⟨x, hx, e, he, hk, rfl⟩

theorem mem_scanDirs {fs : FS} {b : String} {exts : List String} {ds : List PPath}
    {r : ModelRecord} :
    r ∈ scanDirs fs b exts ds ↔
      ∃ d ∈ ds, fs.existsPath d = true ∧ r ∈ scanExts fs b d exts := by
  induction ds with
  | nil => simp [scanDirs]
  | cons d ds ih =>
    by_cases h : fs.existsPath d
    · simp only [scanDirs, if_pos h, List.mem_append, ih, List.mem_cons]
      constructor
      · rintro (hr | ⟨x, hx, hex, hr⟩)
        · exact ⟨d, Or.inl rfl, h, hr⟩
        · exact ⟨x, Or.inr hx, hex, hr⟩
      · rintro ⟨x, hx | hx, hex, hr⟩
        · exact Or.inl (by rwa [hx] at hr)
        · exact Or.inr ⟨x, hx, hex, hr⟩
    · simp only [scanDirs, if_neg h, List.nil_append, ih, List.mem_cons]
      constructor
      · rintro ⟨x, hx, hex, hr⟩; exact ⟨x, Or.inr hx, hex, hr⟩
      · rintro ⟨x, hx | hx, hex, hr⟩
        · rw [hx] at hex; exact absurd hex h
        · exact ⟨x, hx, hex, hr⟩

theorem mem_discover {backends : Registry} {fs : FS} {r : ModelRecord} :
    r ∈ discover_models_common backends fs ↔
      ∃ bc ∈ backends, r ∈ scanDirs fs bc.1 bc.2.extensions bc.2.paths := by
  induction backends with
  | nil => simp [discover_models_common]
  | cons bc rest ih =>
    simp only [discover_models_common, List.mem_append, ih, List.mem_cons]
    constructor
    · rintro (hr | ⟨x, hx, hr⟩)
      · exact ⟨bc, Or.inl rfl, hr⟩
      · exact ⟨x, Or.inr hx, hr⟩
    · rintro ⟨x, hx | hx, hr⟩
      · exact Or.inl (by rwa [hx] at hr)
      · exact Or.inr ⟨x, hx, hr⟩

theorem scanExts_eq_cmap (fs : FS) (b : String) (d : PPath) (exts : List String) :
    scanExts fs b d exts = cmap (fun ext =>
      ((fs.rglob d ext).filter (fun e => isFileKind e.kind)).map (toRecord b)) exts := by
  induction exts with
  | nil => rfl
  | cons ext exts ih => rw [scanExts, cmap, ih]

theorem scanDirs_eq_cmap (fs : FS) (b : String) (exts : List String) (ds : List PPath) :
    scanDirs fs b exts ds = cmap (fun d =>
      if fs.existsPath d then scanExts fs b d exts else []) ds := by
  induction ds with
  | nil => rfl
  | cons d ds ih => rw [scanDirs, cmap, ih]

theorem discover_eq_cmap (backends : Registry) (fs : FS) :
    discover_models_common backends fs = cmap (fun bc =>
      scanDirs fs bc.1 bc.2.extensions bc.2.paths) backends := by
  induction backends with
  | nil => rfl
  | cons bc rest ih => rw [discover_models_common, cmap, ih]

theorem mkdirp_of_dir {fs : FS} {d : PPath} (h : fs.kindAt d = some FKind.directory) :
    fs.mkdirp d = fs := by
  rw [FS.mkdirp, if_pos h]

theorem length_le_of_mem_prefixesOf {p : PPath} {q : PPath} (h : q ∈ prefixesOf p) :
    q.length ≤ p.length := by
  rcases List.mem_map.1 h with ⟨i, _, rfl⟩
  rw [List.length_take]
  exact min_le_right _ _

theorem mkdirp_find? {fs : FS} {d : PPath} {p : FEntry → Bool} {e : FEntry}
    (h : fs.entries.find? p = some e) : (fs.mkdirp d).entries.find? p = some e := by
  rw [FS.mkdirp]
  by_cases hd : fs.kindAt d = some FKind.directory
  · rwa [if_pos hd]
  · rw [if_neg hd]
    exact find?_append_some _ _ _ _ h

theorem mkdirp_not_existsPath {fs : FS} {d q : PPath}
    (h : fs.existsPath q = false) (hlen : d.length < q.length) :
    (fs.mkdirp d).existsPath q = false := by
  rw [FS.mkdirp]
  by_cases hd : fs.kindAt d = some FKind.directory
  · rwa [if_pos hd]
  · rw [if_neg hd]
    unfold FS.existsPath at h ⊢
    rw [List.any_append, h, Bool.false_or]
    rw [List.any_eq_false]
    rintro x hx
    rcases List.mem_map.1 hx with ⟨w, hw, rfl⟩
    have hwlen : w.length ≤ d.length :=
      length_le_of_mem_prefixesOf (List.mem_filter.1 hw).1
    simp only [decide_eq_true_eq]
    intro hqw
    rw [hqw] at hwlen
    omega

/-- Spec-side notion of one path lying under another with every strictly
intermediate component a real directory — "under a directory" as reached
by a traversal that never follows a symlinked directory. -/
def UnderRealDirs (fs : FS) (d q : PPath) : Prop :=
  d <+: q ∧ d.length < q.length ∧ betweenAreDirs fs d q = true

/-- Spec-side characterization of discovery output, written from the spec
sentences: a record for a file under an existing configured directory of
a backend, whose name ends (case-sensitively) in one of that backend's
extensions, where symlinks to regular files count as files and
directories never match. -/
def SpecDiscoverable (backends : Registry) (fs : FS) (r : ModelRecord) : Prop :=
  ∃ bname cfg, (bname, cfg) ∈ backends ∧
    ∃ d ∈ cfg.paths, fs.kindAt d = some FKind.directory ∧
      ∃ e ∈ fs.entries, UnderRealDirs fs d e.path ∧ isFileKind e.kind = true ∧
        (∃ ext ∈ cfg.extensions, strEndsWith (lastName e.path) ext = true) ∧
        r = toRecord bname e

theorem find?_append_singleton_false (l : List α) (a : α) (p : α → Bool)
    (h : p a = false) : (l ++ [a]).find? p = l.find? p := by
  rcases hl : l.find? p with _ | e
  · rw [find?_append_none _ _ _ hl, List.find?_cons_of_neg _ (by simp [h]), List.find?_nil]
  · exact find?_append_some _ _ _ _ hl

theorem find?_replace_self (L : List FEntry) (nE : FEntry) :
    ((L.filter (fun x => !decide (x.path = nE.path))) ++ [nE]).find?
      (fun x => decide (x.path = nE.path)) = some nE := by
  have hnone : (L.filter (fun x => !decide (x.path = nE.path))).find?
      (fun x => decide (x.path = nE.path)) = none := by
    rw [List.find?_eq_none]
    intro a ha
    have := (List.mem_filter.1 ha).2
    simp only [Bool.not_eq_true', decide_eq_false_iff_not] at this
    simp [this]
  rw [find?_append_none _ _ _ hnone, List.find?_cons_of_pos _ (by simp)]

theorem find?_replace_other (L : List FEntry) (nE : FEntry) (q : PPath)
    (hq : q ≠ nE.path) :
    ((L.filter (fun x => !decide (x.path = nE.path))) ++ [nE]).find?
      (fun x => decide (x.path = q)) = L.find? (fun x => decide (x.path = q)) := by
  rw [find?_append_singleton_false _ _ _ (by simp [Ne.symm hq]), find?_filter_eq]
  intro x hx
  simp only [decide_eq_true_eq] at hx
  simp [hx, hq]

theorem count_replace_self (L : List FEntry) (nE : FEntry) :
    (((L.filter (fun x => !decide (x.path = nE.path))) ++ [nE]).filter
      (fun x => decide (x.path = nE.path))).length = 1 := by
  rw [List.filter_append]
  have h1 : (L.filter (fun x => !decide (x.path = nE.path))).filter
      (fun x => decide (x.path = nE.path)) = [] := by
    rw [List.filter_eq_nil_iff]
    intro a ha
    have := (List.mem_filter.1 ha).2
    simp only [Bool.not_eq_true', decide_eq_false_iff_not] at this
    simp [this]
  rw [h1, List.nil_append]
  simp

theorem doPlace_copy (ctx : SwitchCtx) (fs : FS) (src dest : PPath) (e : FEntry)
    (hcf : ctx.copyFails = false)
    (hfind : fs.entries.find? (fun x => decide (x.path = src)) = some e)
    (hk : isFileKind e.kind = true) :
    doPlace ctx fs src dest "copy" = ⟨true, some "copy", false,
      ⟨(fs.entries.filter (fun x => !decide (x.path = dest))) ++
        [⟨dest, FKind.regular, e.size, e.mtime, e.data⟩]⟩⟩ := by
  rw [doPlace, if_neg (by decide), if_neg (by simp [hcf])]
  simp [FS.copy2, hfind, hk]

theorem keys_lookup {backends : Registry} {name : String} {cfg : BackendCfg}
    (hnd : (backends.map Prod.fst).Nodup) (hmem : (name, cfg) ∈ backends) :
    lookupBackend backends name = some cfg := by
  induction backends with
  | nil => simp at hmem
  | cons bc rest ih =>
    rw [List.map_cons, List.nodup_cons] at hnd
    rcases List.mem_cons.1 hmem with rfl | hmem'
    · unfold lookupBackend
      rw [List.find?_cons_of_pos _ (by simp)]
      rfl
    · by_cases hne : bc.1 = name
      · exfalso
        have : name ∈ rest.map Prod.fst := List.mem_map.2 ⟨(name, cfg), hmem', rfl⟩
        rw [hne] at hnd
        exact hnd.1 this
      · unfold lookupBackend
        rw [List.find?_cons_of_neg _ (by simp [hne])]
        exact ih hnd.2 hmem'

/-- C5: discovery output contains exactly the records of files lying under
an existing configured directory of a backend (reached through real
directories only), whose name ends case-sensitively in one of that
backend's extensions, tagged with that backend; symlinks to regular files
count as files, directories (and directory symlinks) never match, and
non-existent configured directories contribute nothing. -/
theorem c5_discovery_characterization (backends : Registry) (fs : FS) (r : ModelRecord) :
    r ∈ discover_models_common backends fs ↔ SpecDiscoverable backends fs r := by
  rw [mem_discover]
  constructor
  · rintro ⟨⟨bname, cfg⟩, hbc, hr⟩
    rcases mem_scanDirs.1 hr with ⟨d, hd, _, hr2⟩
    rcases mem_scanExts.1 hr2 with ⟨ext, hext, e, he, hk, rfl⟩
    rcases mem_rglob.1 he with ⟨hdir, hee, hpre, hlen, hends, hbet⟩
    exact ⟨bname, cfg, hbc, d, hd, hdir, e, hee, ⟨hpre, hlen, hbet⟩, hk,
      ⟨ext, hext, hends⟩, rfl⟩
  · rintro ⟨bname, cfg, hbc, d, hd, hdir, e, hee, ⟨hpre, hlen, hbet⟩, hk,
      ⟨ext, hext, hends⟩, rfl⟩
    refine ⟨(bname, cfg), hbc, ?_⟩
    rw [mem_scanDirs]
    exact ⟨d, hd, existsPath_of_kindAt hdir, mem_scanExts.2
      ⟨ext, hext, e, mem_rglob.2 ⟨hdir, hee, hpre, hlen, hends, hbet⟩, hk, rfl⟩⟩

/-- C8: discovery is a pure function of the filesystem snapshot — two runs
on equal snapshots return identical ordered lists — and the output order
is the concatenation over backends in registry order of, per backend, the
concatenation over its directories in configured order of that
directory's traversal output. -/
theorem c8_deterministic_order (backends : Registry) (fs : FS) :
    (discover_models_common backends fs = cmap (fun bc => cmap (fun d =>
      if fs.existsPath d then cmap (fun ext =>
        ((fs.rglob d ext).filter (fun e => isFileKind e.kind)).map (toRecord bc.1))
        bc.2.extensions
      else []) bc.2.paths) backends) ∧
    ∀ fs2 : FS, fs2.entries = fs.entries →
      discover_models_common backends fs2 = discover_models_common backends fs := by
  constructor
  · rw [discover_eq_cmap]
    congr 1
    funext bc
    rw [scanDirs_eq_cmap]
    congr 1
    funext d
    by_cases h : fs.existsPath d
    · rw [if_pos h, if_pos h, scanExts_eq_cmap]
    · rw [if_neg h, if_neg h]
  · intro fs2 h
    have : fs2 = fs := by cases fs2; cases fs; simpa using h
    rw [this]

/-- C9: every discovered record is reached from a configured directory of
its backend through real directories only — the traversal (pathlib `**`)
never descends into a symlinked directory, so a symbolic-link cycle in
the scanned tree contributes nothing and cannot cause unbounded
recursion; discovery is a total function of the snapshot. -/
theorem c9_no_symlink_descent (backends : Registry) (fs : FS) (r : ModelRecord)
    (h : r ∈ discover_models_common backends fs) :
    ∃ bname cfg, (bname, cfg) ∈ backends ∧
      ∃ d ∈ cfg.paths, UnderRealDirs fs d r.path := by
  rcases mem_discover.1 h with ⟨⟨bname, cfg⟩, hbc, hr⟩
  rcases mem_scanDirs.1 hr with ⟨d, hd, _, hr2⟩
  rcases mem_scanExts.1 hr2 with ⟨ext, hext, e, he, hk, rfl⟩
  rcases mem_rglob.1 he with ⟨hdir, hee, hpre, hlen, hends, hbet⟩
  exact ⟨bname, cfg, hbc, d, hd, hpre, hlen, hbet⟩

/-- C9 witness: on a snapshot with a directory-symlink cycle under the
scanned root, discovery still returns (only) the directly reachable file,
and that record satisfies the reached-through-real-directories property. -/
theorem c9_no_symlink_descent_witness :
    recCyc ∈ discover_models_common regCyc fsCyc ∧
    ∃ bname cfg, (bname, cfg) ∈ regCyc ∧
      ∃ d ∈ cfg.paths, UnderRealDirs fsCyc d recCyc.path :=
  ⟨by decide, c9_no_symlink_descent regCyc fsCyc recCyc (by decide)⟩

/-- C1 counterexample: with `LLAMA_CPP_PATH=/tmp/extra` set, `/tmp/extra`
existing and containing `foo.gguf`, the directory is in no backend's
search-path list and discovery returns nothing — the environment variable
is never consulted, contrary to the claim. -/
theorem c1_counterexample :
    eSet.vars "LLAMA_CPP_PATH" = some ["/", "tmp", "extra"] ∧
    fsTmp.kindAt ["/", "tmp", "extra"] = some FKind.directory ∧
    fsTmp.kindAt ["/", "tmp", "extra", "foo.gguf"] = some FKind.regular ∧
    ((COMMON_BACKENDS eSet).all fun bc =>
      !bc.2.paths.contains ["/", "tmp", "extra"]) = true ∧
    discover_models_common (COMMON_BACKENDS eSet) fsTmp = [] := by
  refine ⟨by decide, by decide, by decide, by decide, by decide⟩

/-- C1 (amended): no environment variable of the form
`<BACKEND_NAME>_PATH` is consulted — the registry depends only on the
platform, home, working directory, `USERPROFILE`, `LOCALAPPDATA` and the
filesystem-existence oracle, so two environments agreeing on those but
differing on any other variable (such as `LLAMA_CPP_PATH`) produce
identical registries. -/
theorem c1_env_vars_ignored (e1 e2 : Env)
    (hw : e1.isWindows = e2.isWindows) (hh : e1.home = e2.home)
    (hc : e1.cwd = e2.cwd)
    (hu : e1.vars "USERPROFILE" = e2.vars "USERPROFILE")
    (hl : e1.vars "LOCALAPPDATA" = e2.vars "LOCALAPPDATA")
    (hf : ∀ p, e1.fsExists p = e2.fsExists p) :
    COMMON_BACKENDS e1 = COMMON_BACKENDS e2 := by
  have hf' : e1.fsExists = e2.fsExists := funext hf
  cases e1 with
  | mk w1 h1 c1 v1 f1 =>
    cases e2 with
    | mk w2 h2 c2 v2 f2 =>
      simp only at hw hh hc hu hl hf'
      subst hw hh hc hf'
      simp only [COMMON_BACKENDS, get_common_model_dirs, llama_paths,
        lmstudio_paths, jan_paths, ooba_paths, general_paths, envPath,
        pathTruthy]
      rw [hu, hl]

/-- C1 amended witness: the registry with `LLAMA_CPP_PATH` set equals the
registry with it unset. -/
theorem c1_env_vars_ignored_witness : COMMON_BACKENDS eSet = COMMON_BACKENDS eUnset :=
  c1_env_vars_ignored eSet eUnset rfl rfl rfl (by decide) (by decide) (fun _ => rfl)

/-- C4 counterexample: on Windows with `USERPROFILE` equal to the home
directory (the claim's own example), the Oobabooga list contains
`<home>/oobabooga/models` twice — not every backend's list is
deduplicated. -/
theorem c4_counterexample :
    envPath eWinDup "USERPROFILE" = eWinDup.home ∧
    lookupBackend (COMMON_BACKENDS eWinDup) "Oobabooga" =
      some ⟨[["C:", "Users", "u", "oobabooga", "models"],
        ["C:", "Users", "u", "text-generation-webui", "models"],
        ["C:", "Users", "u", "oobabooga", "models"]], EXTS⟩ ∧
    ((COMMON_BACKENDS eWinDup).all fun bc => decide bc.2.paths.Nodup) = false := by
  refine ⟨by decide, by decide, by decide⟩

/-- C4 (amended): only the llama.cpp directory list is deduplicated; that
list is duplicate-free, is a subsequence of the raw candidate list (so
first-seen order is preserved), and keeps exactly the raw list's
elements. The other backends' lists are taken as built, without
deduplication. -/
theorem c4_llama_dedup (e : Env) :
    lookupBackend (COMMON_BACKENDS e) "llama.cpp" =
      some ⟨fromKeys (llama_paths e), EXTS⟩ ∧
    (fromKeys (llama_paths e)).Nodup ∧
    List.Sublist (fromKeys (llama_paths e)) (llama_paths e) ∧
    ∀ x, x ∈ fromKeys (llama_paths e) ↔ x ∈ llama_paths e := by
  refine ⟨?_, fromKeys_nodup _, fromKeys_sublist _, fun x => mem_fromKeys _ x⟩
  rfl

theorem switch_decline_eq (backends : Registry) (ctx : SwitchCtx) (fs : FS)
    (model : ModelRecord) (db : String) (method : String) (cfg : BackendCfg)
    (dd : PPath) (rest : List PPath)
    (hlookup : lookupBackend backends db = some cfg)
    (hpaths : cfg.paths = dd :: rest)
    (hmk : ctx.mkdirFails = false)
    (hdir : fs.kindAt dd = some FKind.directory)
    (hex : fs.existsPath (dd ++ [lastName model.path]) = true)
    (hans : ctx.overwriteAnswer = false) :
    switch_model backends ctx fs model db method = some ⟨false, none, true, fs⟩ := by
  unfold switch_model
  rw [hlookup]
  dsimp only
  rw [hpaths]
  dsimp only
  rw [if_neg (by simp [hmk]), mkdirp_of_dir hdir, if_pos hex,
    if_pos (by simp [hans])]

/-- C6: when the destination path already exists and the user declines the
overwrite confirmation, `switch_model` returns the unsuccessful skipped
outcome and the filesystem is returned exactly as it was — no entry,
including the existing destination and the source, is touched. -/
theorem c6_decline_no_mutation (backends : Registry) (ctx : SwitchCtx) (fs : FS)
    (model : ModelRecord) (db : String) (method : String) (cfg : BackendCfg)
    (dd : PPath) (rest : List PPath)
    (hlookup : lookupBackend backends db = some cfg)
    (hpaths : cfg.paths = dd :: rest)
    (hmk : ctx.mkdirFails = false)
    (hdir : fs.kindAt dd = some FKind.directory)
    (hex : fs.existsPath (dd ++ [lastName model.path]) = true)
    (hans : ctx.overwriteAnswer = false) :
    switch_model backends ctx fs model db method = some ⟨false, none, true, fs⟩ :=
  switch_decline_eq backends ctx fs model db method cfg dd rest
    hlookup hpaths hmk hdir hex hans

/-- C6 witness: declining the overwrite on an occupied destination slot
returns the skipped outcome with the snapshot unchanged. -/
theorem c6_decline_no_mutation_witness :
    switch_model tReg sctxDecline tFS1 tModel "LM Studio" "copy" =
      some ⟨false, none, true, tFS1⟩ :=
  c6_decline_no_mutation tReg sctxDecline tFS1 tModel "LM Studio" "copy"
    ⟨[["/", "b"]], EXTS⟩ ["/", "b"] [] (by decide) (by decide) (by decide)
    (by decide) (by decide) (by decide)

/-- C3: with the symlink method and link creation failing, on Windows the
operation silently degrades to a copy and reports success with a regular
file placed at the destination; on any other platform the failure is
terminal — the call reports failure and nothing is placed at the
destination. -/
theorem c3_symlink_fallback (backends : Registry) (ctx : SwitchCtx) (fs : FS)
    (model : ModelRecord) (db : String) (cfg : BackendCfg) (dd : PPath)
    (rest : List PPath) (e : FEntry)
    (hlookup : lookupBackend backends db = some cfg)
    (hpaths : cfg.paths = dd :: rest)
    (hmk : ctx.mkdirFails = false)
    (hsf : ctx.symlinkFails = true)
    (hcf : ctx.copyFails = false)
    (hnex : fs.existsPath (dd ++ [lastName model.path]) = false)
    (hfind : fs.entries.find? (fun x => decide (x.path = model.path)) = some e)
    (hk : isFileKind e.kind = true) :
    (ctx.isWindows = true → ∃ fs2, switch_model backends ctx fs model db "symlink" =
        some ⟨true, some "copy", false, fs2⟩ ∧
      fs2.kindAt (dd ++ [lastName model.path]) = some FKind.regular) ∧
    (ctx.isWindows = false → switch_model backends ctx fs model db "symlink" =
        some ⟨false, none, false, fs.mkdirp dd⟩ ∧
      (fs.mkdirp dd).existsPath (dd ++ [lastName model.path]) = false) := by
  have hlen : dd.length < (dd ++ [lastName model.path]).length := by simp
  have hnex1 : (fs.mkdirp dd).existsPath (dd ++ [lastName model.path]) = false :=
    mkdirp_not_existsPath hnex hlen
  have hfind1 : (fs.mkdirp dd).entries.find?
      (fun x => decide (x.path = model.path)) = some e := mkdirp_find? hfind
  have hred : switch_model backends ctx fs model db "symlink" =
      some (doPlace ctx (fs.mkdirp dd) model.path (dd ++ [lastName model.path]) "symlink") := by
    unfold switch_model
    rw [hlookup]
    dsimp only
    rw [hpaths]
    dsimp only
    rw [if_neg (by simp [hmk]), if_neg (by simp [hnex1])]
  constructor
  · intro hwin
    refine ⟨⟨((fs.mkdirp dd).entries.filter
        (fun x => !decide (x.path = dd ++ [lastName model.path]))) ++
        [⟨dd ++ [lastName model.path], FKind.regular, e.size, e.mtime, e.data⟩]⟩,
      ?_, ?_⟩
    · rw [hred]
      unfold doPlace
      rw [if_pos rfl]
      simp only [hwin, hsf, if_true]
      rw [if_neg (by simp [hcf])]
      simp [FS.copy2, hfind1, hk]
    · unfold FS.kindAt
      rw [find?_replace_self ((fs.mkdirp dd).entries)
        ⟨dd ++ [lastName model.path], FKind.regular, e.size, e.mtime, e.data⟩]
      rfl
  · intro hwin
    refine ⟨?_, hnex1⟩
    rw [hred]
    unfold doPlace
    rw [if_pos rfl]
    simp only [hwin, hsf, Bool.false_eq_true, if_false, if_true]

/-- C3 witness: the Windows run falls back to a regular-file copy and
reports success with method copy; the POSIX run reports failure with
nothing placed at the destination. -/
theorem c3_symlink_fallback_witness :
    (∃ fs2, switch_model tReg sctxWinFail tFS0 tModel "LM Studio" "symlink" =
        some ⟨true, some "copy", false, fs2⟩ ∧
      fs2.kindAt ["/", "b", "m.gguf"] = some FKind.regular) ∧
    switch_model tReg sctxNixFail tFS0 tModel "LM Studio" "symlink" =
      some ⟨false, none, false, tFS0.mkdirp ["/", "b"]⟩ ∧
    (tFS0.mkdirp ["/", "b"]).existsPath ["/", "b", "m.gguf"] = false :=
  ⟨(c3_symlink_fallback tReg sctxWinFail tFS0 tModel "LM Studio"
      ⟨[["/", "b"]], EXTS⟩ ["/", "b"] [] ⟨["/", "a", "m.gguf"], FKind.regular, 5, 7, 42⟩
      (by decide) (by decide) (by decide) (by decide) (by decide) (by decide)
      (by decide) (by decide)).1 rfl,
    (c3_symlink_fallback tReg sctxNixFail tFS0 tModel "LM Studio"
      ⟨[["/", "b"]], EXTS⟩ ["/", "b"] [] ⟨["/", "a", "m.gguf"], FKind.regular, 5, 7, 42⟩
      (by decide) (by decide) (by decide) (by decide) (by decide) (by decide)
      (by decide) (by decide)).2 rfl⟩

/-- C7: a successful copy switch places exactly one file at the
destination backend's first configured directory joined with the source
file's base name; its size (and content) equal the source entry's, and
the source entry is still present, unchanged. -/
theorem c7_copy_postconditions (backends : Registry) (ctx : SwitchCtx) (fs : FS)
    (model : ModelRecord) (db : String) (cfg : BackendCfg) (dd : PPath)
    (rest : List PPath) (e : FEntry)
    (hlookup : lookupBackend backends db = some cfg)
    (hpaths : cfg.paths = dd :: rest)
    (hmk : ctx.mkdirFails = false) (hcf : ctx.copyFails = false)
    (hans : ctx.overwriteAnswer = true) (hrem : ctx.removeFails = false)
    (hfind : fs.entries.find? (fun x => decide (x.path = model.path)) = some e)
    (hk : isFileKind e.kind = true)
    (hnpre : ¬ (dd ++ [lastName model.path]) <+: model.path) :
    ∃ fs2, switch_model backends ctx fs model db "copy" =
        some ⟨true, some "copy", false, fs2⟩ ∧
      fs2.entries.find? (fun x => decide (x.path = dd ++ [lastName model.path])) =
        some ⟨dd ++ [lastName model.path], FKind.regular, e.size, e.mtime, e.data⟩ ∧
      (fs2.entries.filter (fun x => decide (x.path = dd ++ [lastName model.path]))).length = 1 ∧
      fs2.entries.find? (fun x => decide (x.path = model.path)) = some e := by
  have hne : model.path ≠ dd ++ [lastName model.path] := by
    intro h
    exact hnpre (h ▸ List.prefix_refl _)
  have hfind1 : (fs.mkdirp dd).entries.find?
      (fun x => decide (x.path = model.path)) = some e := mkdirp_find? hfind
  by_cases h1 : (fs.mkdirp dd).existsPath (dd ++ [lastName model.path]) = true
  · -- destination occupied: accepted overwrite, removal, then copy
    have hfind2 : ((fs.mkdirp dd).removeAt (dd ++ [lastName model.path])).entries.find?
        (fun x => decide (x.path = model.path)) = some e := by
      unfold FS.removeAt
      rcases h2 : (fs.mkdirp dd).kindAt (dd ++ [lastName model.path]) with _ | k
      · rw [find?_filter_eq _ _ _ ?_]
        · exact hfind1
        · intro x hx
          simp only [decide_eq_true_eq] at hx
          simp [hx, hne]
      · cases k
        case directory =>
          rw [find?_filter_eq _ _ _ ?_]
          · exact hfind1
          · intro x hx
            simp only [decide_eq_true_eq] at hx
            simp [hx, hnpre]
        all_goals
          rw [find?_filter_eq _ _ _ ?_]
          · exact hfind1
          · intro x hx
            simp only [decide_eq_true_eq] at hx
            simp [hx, hne]
    refine ⟨⟨(((fs.mkdirp dd).removeAt (dd ++ [lastName model.path])).entries.filter
        (fun x => !decide (x.path = dd ++ [lastName model.path]))) ++
        [⟨dd ++ [lastName model.path], FKind.regular, e.size, e.mtime, e.data⟩]⟩,
      ?_, ?_, ?_, ?_⟩
    · unfold switch_model
      rw [hlookup]
      dsimp only
      rw [hpaths]
      dsimp only
      rw [if_neg (by simp [hmk]), if_pos h1, if_neg (by simp [hans]),
        if_neg (by simp [hrem]),
        doPlace_copy ctx _ model.path (dd ++ [lastName model.path]) e hcf hfind2 hk]
    · exact find?_replace_self
        (((fs.mkdirp dd).removeAt (dd ++ [lastName model.path])).entries)
        ⟨dd ++ [lastName model.path], FKind.regular, e.size, e.mtime, e.data⟩
    · exact count_replace_self
        (((fs.mkdirp dd).removeAt (dd ++ [lastName model.path])).entries)
        ⟨dd ++ [lastName model.path], FKind.regular, e.size, e.mtime, e.data⟩
    · exact (find?_replace_other
        (((fs.mkdirp dd).removeAt (dd ++ [lastName model.path])).entries)
        ⟨dd ++ [lastName model.path], FKind.regular, e.size, e.mtime, e.data⟩
        model.path hne).trans hfind2
  · -- destination free: straight copy
    refine ⟨⟨((fs.mkdirp dd).entries.filter
        (fun x => !decide (x.path = dd ++ [lastName model.path]))) ++
        [⟨dd ++ [lastName model.path], FKind.regular, e.size, e.mtime, e.data⟩]⟩,
      ?_, ?_, ?_, ?_⟩
    · unfold switch_model
      rw [hlookup]
      dsimp only
      rw [hpaths]
      dsimp only
      rw [if_neg (by simp [hmk]), if_neg h1,
        doPlace_copy ctx _ model.path (dd ++ [lastName model.path]) e hcf hfind1 hk]
    · exact find?_replace_self ((fs.mkdirp dd).entries)
        ⟨dd ++ [lastName model.path], FKind.regular, e.size, e.mtime, e.data⟩
    · exact count_replace_self ((fs.mkdirp dd).entries)
        ⟨dd ++ [lastName model.path], FKind.regular, e.size, e.mtime, e.data⟩
    · exact (find?_replace_other ((fs.mkdirp dd).entries)
        ⟨dd ++ [lastName model.path], FKind.regular, e.size, e.mtime, e.data⟩
        model.path hne).trans hfind1

/-- C7 witness: copying `m.gguf` into the occupied LM Studio slot (answer
yes) succeeds with method copy, leaves one regular file of the source's
size at `/b/m.gguf`, and leaves the source entry unchanged. -/
theorem c7_copy_postconditions_witness :
    ∃ fs2, switch_model tReg sctxAccept tFS1 tModel "LM Studio" "copy" =
        some ⟨true, some "copy", false, fs2⟩ ∧
      fs2.entries.find? (fun x => decide (x.path = ["/", "b"] ++ [lastName tModel.path])) =
        some ⟨["/", "b"] ++ [lastName tModel.path], FKind.regular, 5, 7, 42⟩ ∧
      (fs2.entries.filter (fun x => decide (x.path = ["/", "b"] ++ [lastName tModel.path]))).length = 1 ∧
      fs2.entries.find? (fun x => decide (x.path = tModel.path)) =
        some ⟨["/", "a", "m.gguf"], FKind.regular, 5, 7, 42⟩ :=
  c7_copy_postconditions tReg sctxAccept tFS1 tModel "LM Studio"
    ⟨[["/", "b"]], EXTS⟩ ["/", "b"] [] ⟨["/", "a", "m.gguf"], FKind.regular, 5, 7, 42⟩
    (by decide) (by decide) (by decide) (by decide) (by decide) (by decide)
    (by decide) (by decide) (by decide)

/-- C10: any backend returned by destination selection appears in the
registry with a nonempty directory list (empty-path backends are filtered
out of the offered choices), so the switch's access to the first
configured directory is always defined — `switch_model` never raises on
such a destination. -/
theorem c10_dest_backend_nonempty_paths (backends : Registry) (src : String)
    (choice : Option Nat) (name : String)
    (hnd : (backends.map Prod.fst).Nodup)
    (hsel : select_destination_backend backends src choice = some name) :
    ∃ cfg, lookupBackend backends name = some cfg ∧ cfg.paths ≠ [] ∧
      ∀ (ctx : SwitchCtx) (fs : FS) (model : ModelRecord) (method : String),
        (switch_model backends ctx fs model name method).isSome = true := by
  unfold select_destination_backend at hsel
  dsimp only at hsel
  by_cases hempty : ((backends.filter
      (fun bc => decide (bc.1 ≠ src) && !bc.2.paths.isEmpty)).map (·.1)).isEmpty
  · rw [if_pos hempty] at hsel
    exact absurd hsel (by simp)
  · rw [if_neg hempty] at hsel
    rcases choice with _ | i
    · exact absurd hsel (by simp)
    · have hmem := List.getElem?_mem hsel
      rcases List.mem_map.1 hmem with ⟨bc, hbcmem, rfl⟩
      rcases List.mem_filter.1 hbcmem with ⟨hbcin, hpred⟩
      have hpne : bc.2.paths ≠ [] := by
        rw [Bool.and_eq_true] at hpred
        simpa using hpred.2
      have hlook : lookupBackend backends bc.1 = some bc.2 := by
        rcases bc with ⟨n, c⟩
        exact keys_lookup hnd hbcin
      refine ⟨bc.2, hlook, hpne, ?_⟩
      intro ctx fs model method
      rcases hp : bc.2.paths with _ | ⟨dd, rest⟩
      · exact absurd hp hpne
      · unfold switch_model
        rw [hlook]
        dsimp only
        rw [hp]
        dsimp only
        by_cases h1 : ctx.mkdirFails = true
        · rw [if_pos h1]
          rfl
        · rw [if_neg h1]
          by_cases h2 : (fs.mkdirp dd).existsPath (dd ++ [lastName model.path]) = true
          · rw [if_pos h2]
            by_cases h3 : (!ctx.overwriteAnswer) = true
            · rw [if_pos h3]
              rfl
            · rw [if_neg h3]
              by_cases h4 : ctx.removeFails = true
              · rw [if_pos h4]
                rfl
              · rw [if_neg h4]
                rfl
          · rw [if_neg h2]
            rfl

/-- C10 witness: with source llama.cpp the selection offers LM Studio,
whose path list is nonempty, and the switch call on it is defined. -/
theorem c10_dest_backend_nonempty_paths_witness :
    lookupBackend tReg "LM Studio" = some ⟨[["/", "b"]], EXTS⟩ ∧
    (switch_model tReg sctxDecline tFS1 tModel "LM Studio" "copy").isSome = true := by
  obtain ⟨cfg, hlook, hne, hall⟩ := c10_dest_backend_nonempty_paths tReg "llama.cpp"
    (some 0) "LM Studio" (by decide) (by decide)
  exact ⟨by decide, hall sctxDecline tFS1 tModel "copy"⟩

/-- C2 counterexample: a run that reaches the overwrite prompt and
declines it (models were discovered, a model and a destination were
selected, the destination file exists, the user answers no) exits with
code 1, not 0 — declining the overwrite is not a clean exit. -/
theorem c2_counterexample :
    sctxDecline.overwriteAnswer = false ∧
    tFS1.existsPath (["/", "b"] ++ [lastName tModel.path]) = true ∧
    (discover_models_common tReg tFS1).isEmpty = false ∧
    mainExit tReg tFS1 uRun sctxDecline = some 1 := by
  refine ⟨by decide, by decide, by decide, by decide⟩

/-- C2 (amended): cancelling the model selection or the destination
selection exits with code 0; declining the overwrite confirmation makes
`switch_model` report failure and the program exits with code 1, exactly
as for any other switch failure (exit 1 also occurs when no models
survive the fallback scans). -/
theorem c2_exit_codes (backends : Registry) (fs : FS) (u : MainCtx)
    (sctx : SwitchCtx) :
    ((mainModels backends fs u).isEmpty = false → u.modelChoice = none →
      mainExit backends fs u sctx = some 0) ∧
    (∀ i sel, u.modelChoice = some i → (mainModels backends fs u)[i]? = some sel →
      select_destination_backend backends sel.backend u.destChoice = none →
      mainExit backends fs u sctx = some 0) ∧
    (∀ i sel db cfg dd rest, u.modelChoice = some i →
      (mainModels backends fs u)[i]? = some sel →
      select_destination_backend backends sel.backend u.destChoice = some db →
      lookupBackend backends db = some cfg → cfg.paths = dd :: rest →
      sctx.mkdirFails = false → fs.kindAt dd = some FKind.directory →
      fs.existsPath (dd ++ [lastName sel.path]) = true →
      sctx.overwriteAnswer = false →
      mainExit backends fs u sctx = some 1) := by
  refine ⟨?_, ?_, ?_⟩
  · intro hne hmc
    unfold mainExit
    dsimp only
    rw [if_neg (by simp [hne]), hmc]
  · intro i sel hmc hget hdest
    have hne : (mainModels backends fs u).isEmpty = false := by
      rcases h : mainModels backends fs u with _ | _
      · rw [h] at hget
        simp at hget
      · rfl
    unfold mainExit
    dsimp only
    rw [if_neg (by simp [hne]), hmc]
    dsimp only
    rw [hget]
    dsimp only
    rw [hdest]
  · intro i sel db cfg dd rest hmc hget hdest hlookup hpaths hmk hdir hex hans
    have hne : (mainModels backends fs u).isEmpty = false := by
      rcases h : mainModels backends fs u with _ | _
      · rw [h] at hget
        simp at hget
      · rfl
    unfold mainExit
    dsimp only
    rw [if_neg (by simp [hne]), hmc]
    dsimp only
    rw [hget]
    dsimp only
    rw [hdest]
    dsimp only
    rw [switch_decline_eq backends sctx fs sel db u.methodChoice cfg dd rest
      hlookup hpaths hmk hdir hex hans]
    rfl

/-- C2 witness: cancelling the model selection exits 0, and the
decline-overwrite run exits 1. -/
theorem c2_exit_codes_witness :
    mainExit tReg tFS1 uCancel sctxDecline = some 0 ∧
    mainExit tReg tFS1 uRun sctxDecline = some 1 := by
  constructor
  · exact (c2_exit_codes tReg tFS1 uCancel sctxDecline).1 (by decide) (by decide)
  · exact (c2_exit_codes tReg tFS1 uRun sctxDecline).2.2 0 tModel "LM Studio"
      ⟨[["/", "b"]], EXTS⟩ ["/", "b"] [] (by decide) (by decide) (by decide)
      (by decide) (by decide) (by decide) (by decide) (by decide) (by decide)

/-- C8 witness: two discovery runs over equal snapshots yield the same
ordered list. -/
theorem c8_deterministic_order_witness :
    discover_models_common tReg tFS1b = discover_models_common tReg tFS1 :=
  (c8_deterministic_order tReg tFS1).2 tFS1b (by decide)
